import Mathlib

/-!
Shallow embedding of the earnings-volatility scanner (src/app.py) and proofs
about its scoring and scanning pipeline.

Numeric model: Python/NumPy float64 values are modelled as real numbers.
NaN (not-a-number, produced by a failed historical-move fetch and propagated
through arithmetic) is modelled as the none case of an Option over the reals:
arithmetic maps over the option, so none propagates, and any comparison of
none against a threshold is false, matching IEEE NaN comparison semantics.
Fallible provider calls (wrapped in try/except in the source) are modelled as
explicit sum types.
-/

/-- One option-contract row of a chain DataFrame fetched from the provider,
with columns strike, lastPrice, impliedVolatility, openInterest.  The dist
field models the "dist" column of src/app.py lines 102-103: it is none while
the column is absent (as in a freshly fetched chain) and some d once the
implied-move estimator has assigned it. -/
structure Contract where
  strike : ℝ
  lastPrice : ℝ
  impliedVolatility : ℝ
  openInterest : ℝ
  dist : Option ℝ := none

/-- Mean of a list of reals (pandas Series.mean over non-NaN entries).  On an
empty list pandas yields NaN while this model yields 0/0 = 0; the difference
is unobservable in the program because every mean is taken over a chain side
that the implied-move step has already required to be non-empty. -/
noncomputable def mean (l : List ℝ) : ℝ := l.sum / l.length

/-- skew_proxy from src/app.py lines 117-118: mean implied volatility of puts
minus mean implied volatility of calls. -/
noncomputable def skew_proxy (calls puts : List Contract) : ℝ :=
  mean (puts.map Contract.impliedVolatility) - mean (calls.map Contract.impliedVolatility)

/-- oi_imbalance from src/app.py lines 120-123. -/
noncomputable def oi_imbalance (calls puts : List Contract) : ℝ :=
  let call_oi := (calls.map Contract.openInterest).sum
  let put_oi := (puts.map Contract.openInterest).sum
  (call_oi - put_oi) / (call_oi + put_oi + 1)

/-- tilt as computed inside score_model, src/app.py line 127. -/
noncomputable def tilt (skew oi : ℝ) : ℝ :=
  0.3 * Real.tanh skew + 0.2 * Real.tanh oi

/-- score_model from src/app.py lines 125-130, returning
(underpricing, squeeze, cascade).  The historical move may be NaN (none),
in which case the derived underpricing is NaN as well. -/
noncomputable def score_model (im : ℝ) (hm : Option ℝ) (skew oi : ℝ) :
    Option ℝ × ℝ × ℝ :=
  (hm.map (fun h => h / (im + 1e-6)), 0.5 + tilt skew oi, 0.5 - tilt skew oi)

/-- setDist models the two in-place column assignments of src/app.py lines
102-103: every row of the chain receives a dist column |strike - spot|.
The assignment mutates the DataFrame handed in by the caller, so the model
returns the updated chain explicitly. -/
noncomputable def setDist (spot : ℝ) (rows : List Contract) : List Contract :=
  rows.map (fun r => { r with dist := some |r.strike - spot| })

/-- distVal reads the dist column of a row, defaulting to 0 when the column
is absent; at every point of use the column has just been set by setDist. -/
def distVal (r : Contract) : ℝ := r.dist.getD 0

/-- idxminAux models pandas Series.idxmin over the measure applied to each
row: it returns the positional index of the first row attaining the minimum
together with that row, or none when the list is empty (pandas raises
ValueError on an empty series).  Ties go to the earliest row because idxmin
returns the first occurrence of the minimum. -/
noncomputable def idxminAux (m : Contract → ℝ) : List Contract → Option (ℕ × Contract)
  | [] => none
  | c :: cs =>
    match idxminAux m cs with
    | none => some (0, c)
    | some (j, b) => if m b < m c then some (j + 1, b) else some (0, c)

/-- implied_move from src/app.py lines 101-106.  It first mutates both
chains by assigning the dist column (state passing: the mutated chains are
returned), then selects the at-the-money rows by idxmin over dist and
returns (atm_call_price + atm_put_price) / spot.  The value component is
none when either side is empty, modelling the uncaught ValueError that
idxmin raises on an empty series. -/
noncomputable def implied_move (spot : ℝ) (calls puts : List Contract) :
    List Contract × List Contract × Option ℝ :=
  let calls' := setDist spot calls
  let puts' := setDist spot puts
  match idxminAux distVal calls', idxminAux distVal puts' with
  | some (_, atm_call), some (_, atm_put) =>
    (calls', puts', some ((atm_call.lastPrice + atm_put.lastPrice) / spot))
  | _, _ => (calls', puts', none)

/-- pct_change models pandas Series.pct_change on the list of closing
prices: entry i of the result is (close[i+1] - close[i]) / close[i].  The
leading NaN that pandas places at position 0 is dropped here because the
subsequent mean skips NaN entries. -/
noncomputable def pct_change : List ℝ → List ℝ
  | [] => []
  | [_] => []
  | a :: b :: rest => (b - a) / a :: pct_change (b :: rest)

/-- hist_move from src/app.py lines 108-115: fetch two years of closes,
compute day-over-day percentage returns, return the mean absolute return.
Any fetch failure is caught and yields NaN (none).  A successful fetch with
fewer than two closes leaves no valid returns, and the pandas mean of an
empty/all-NaN series is NaN as well. -/
noncomputable def hist_move : Except Unit (List ℝ) → Option ℝ
  | .error _ => none
  | .ok closes =>
    let rets := pct_change closes
    if rets.isEmpty then none else some (mean (rets.map (fun r => |r|)))

/-- Result of the earnings-calendar lookup inside reports_today
(src/app.py lines 75-85): err models any exception raised in the try block
(provider failure or malformed calendar row), emptyCal models a calendar
that is None or empty, and ok d is a successfully extracted earnings date,
represented as an absolute day number. -/
inductive CalFetch where
  | err : CalFetch
  | emptyCal : CalFetch
  | ok : ℤ → CalFetch

/-- reports_today from src/app.py lines 75-85: a lookup failure or an absent
calendar returns false (the except clause and the empty check never let an
error propagate); otherwise the ticker reports today iff the extracted
earnings date equals today's date. -/
def reports_today (today : ℤ) : CalFetch → Bool
  | .err => false
  | .emptyCal => false
  | .ok d => d == today

/-- External market-data provider as seen by one scan pass: per ticker, the
earnings-calendar lookup, the options fetch of get_options_data
(src/app.py lines 87-99; none models no listed expirations or any caught
exception, some carries spot, nearest expiry and the call/put chains), and
the two-year close history consumed by hist_move (error models a caught
fetch exception). -/
structure Provider where
  cal : String → CalFetch
  opts : String → Option (ℝ × String × List Contract × List Contract)
  hist : String → Except Unit (List ℝ)

/-- Python round(x, 2), modelled as rounding to the nearest multiple of
1/100; the half-even versus half-up difference at exact midpoints is not
relied upon by any claim. -/
noncomputable def round2 (x : ℝ) : ℝ := ((round (x * 100) : ℤ) : ℝ) / 100

/-- One displayed result row, src/app.py lines 153-161. -/
structure Row where
  ticker : String
  spot : ℝ
  impliedMovePct : ℝ
  histMovePct : ℝ
  underpricing : ℝ
  squeezeProb : ℝ
  cascadeProb : ℝ

/-- One iteration of the scan loop (src/app.py lines 140-162) for a single
ticker: skip unless reporting today; skip when options data is unavailable
(the `if data:` truthiness test only rules out None, not empty chains); run
implied_move, whose ValueError on an empty chain side is uncaught and
modelled as Except.error, aborting the scan; compute the remaining metrics
on the (mutated) chains; score; and append a row exactly when
underpricing >= min_underpricing and (squeeze >= min_prob or
cascade >= min_prob).  A NaN underpricing (the none case, reached exactly
when hist_move is NaN) fails the >= comparison, so no row is appended.  The
fixed per-ticker sleep has no observable effect in this model. -/
noncomputable def scanStep (today : ℤ) (min_underpricing min_prob : ℝ)
    (P : Provider) (ticker : String) : Except Unit (Option Row) :=
  if reports_today today (P.cal ticker) then
    match P.opts ticker with
    | none => .ok none
    | some (spot, _expiry, calls, puts) =>
      match implied_move spot calls puts with
      | (_, _, none) => .error ()
      | (calls', puts', some im) =>
        let hm := hist_move (P.hist ticker)
        let skew := skew_proxy calls' puts'
        let oi := oi_imbalance calls' puts'
        match hm, score_model im hm skew oi with
        | some h, (some u, squeeze, cascade) =>
          if u ≥ min_underpricing ∧ (squeeze ≥ min_prob ∨ cascade ≥ min_prob) then
            .ok (some ⟨ticker, round2 spot, round2 (im * 100), round2 (h * 100),
              round2 u, round2 squeeze, round2 cascade⟩)
          else .ok none
        | _, _ => .ok none
  else .ok none

/-- The scan loop over the ticker universe, accumulating accepted rows in
scan order; an uncaught exception in any step aborts the whole scan, since
it propagates out of the for loop in src/app.py before line 164. -/
noncomputable def scanLoop (today : ℤ) (min_underpricing min_prob : ℝ)
    (P : Provider) : List String → Except Unit (List Row)
  | [] => .ok []
  | t :: ts =>
    match scanStep today min_underpricing min_prob P t with
    | .error e => .error e
    | .ok none => scanLoop today min_underpricing min_prob P ts
    | .ok (some r) =>
      match scanLoop today min_underpricing min_prob P ts with
      | .error e => .error e
      | .ok rows => .ok (r :: rows)

/-- Provider on which every lookup fails, used to witness claim C5. -/
noncomputable def provider5 : Provider :=
  ⟨fun _ => .err, fun _ => none, fun _ => .error ()⟩

/-- Provider whose price-history fetch fails while the calendar says the
ticker reports today (day 7) and the option chains are one row per side;
used to witness claim C10. -/
noncomputable def provider10 : Provider :=
  ⟨fun _ => .ok 7,
    fun _ => some (100, "exp0", [⟨100, 3, 1/2, 10, none⟩], [⟨100, 2, 3/5, 5, none⟩]),
    fun _ => .error ()⟩

/-- Provider for the claim C4 failing input: the ticker reports today (day
7), the options fetch succeeds, but the fetched chain has an empty call
side. -/
noncomputable def provider4 : Provider :=
  ⟨fun _ => .ok 7,
    fun _ => some (100, "exp0", [], [⟨100, 2, 3/5, 5, none⟩]),
    fun _ => .ok [100, 101]⟩

/-- Claim C1: for every input, score_model returns squeeze and cascade
values that sum to exactly 1, with squeeze = 0.5 + tilt and
cascade = 0.5 - tilt for the same tilt value. -/
theorem score_model_sum_one (im : ℝ) (hm : Option ℝ) (skew oi : ℝ) :
    (score_model im hm skew oi).2.1 = 0.5 + tilt skew oi ∧
    (score_model im hm skew oi).2.2 = 0.5 - tilt skew oi ∧
    (score_model im hm skew oi).2.1 + (score_model im hm skew oi).2.2 = 1 := by
  refine ⟨rfl, rfl, ?_⟩
  show (0.5 + tilt skew oi) + (0.5 - tilt skew oi) = 1
  ring

/-- Claim C2: score_model computes underpricing as hist_move divided by
(implied_move + 1e-6), and the result is nonnegative whenever both the
historical move and the implied move are nonnegative. -/
theorem score_model_underpricing_nonneg (im hm skew oi : ℝ)
    (hhm : 0 ≤ hm) (him : 0 ≤ im) :
    (score_model im (some hm) skew oi).1 = some (hm / (im + 1e-6)) ∧
    0 ≤ hm / (im + 1e-6) := by
  have hpos : (0:ℝ) < im + 1e-6 := by
    have : (0:ℝ) < 1e-6 := by norm_num
    linarith
  exact ⟨rfl, div_nonneg hhm hpos.le⟩

/-- Witness for claim C2 at implied move 0.05, historical move 0.02. -/
theorem score_model_underpricing_nonneg_w :
    (0:ℝ) ≤ 2/100 ∧ (0:ℝ) ≤ 5/100 ∧
    ((score_model (5/100) (some (2/100)) 0 0).1 = some ((2/100) / (5/100 + 1e-6)) ∧
      0 ≤ (2/100 : ℝ) / (5/100 + 1e-6)) :=
  ⟨by norm_num, by norm_num,
    score_model_underpricing_nonneg (5/100) (2/100) 0 0 (by norm_num) (by norm_num)⟩

/-- Claim C6: the open-interest imbalance equals
(call_oi - put_oi) / (call_oi + put_oi + 1) and lies strictly inside the open
interval (-1, 1) whenever both open-interest sums are nonnegative. -/
theorem oi_imbalance_bounds (calls puts : List Contract)
    (hc : 0 ≤ (calls.map Contract.openInterest).sum)
    (hp : 0 ≤ (puts.map Contract.openInterest).sum) :
    oi_imbalance calls puts =
      ((calls.map Contract.openInterest).sum - (puts.map Contract.openInterest).sum) /
        ((calls.map Contract.openInterest).sum + (puts.map Contract.openInterest).sum + 1) ∧
    -1 < oi_imbalance calls puts ∧ oi_imbalance calls puts < 1 := by
  set c := (calls.map Contract.openInterest).sum with hcdef
  set p := (puts.map Contract.openInterest).sum with hpdef
  have heq : oi_imbalance calls puts = (c - p) / (c + p + 1) := rfl
  have hd : (0:ℝ) < c + p + 1 := by linarith
  refine ⟨heq, ?_, ?_⟩
  · rw [heq, lt_div_iff hd]
    linarith
  · rw [heq, div_lt_one hd]
    linarith

/-- Witness for claim C6 on one-row chains with call OI 10 and put OI 5. -/
theorem oi_imbalance_bounds_w :
    0 ≤ (([⟨100, 3, 1/2, 10, none⟩] : List Contract).map Contract.openInterest).sum ∧
    0 ≤ (([⟨100, 2, 3/5, 5, none⟩] : List Contract).map Contract.openInterest).sum ∧
    (oi_imbalance [⟨100, 3, 1/2, 10, none⟩] [⟨100, 2, 3/5, 5, none⟩] =
      ((([⟨100, 3, 1/2, 10, none⟩] : List Contract).map Contract.openInterest).sum -
        (([⟨100, 2, 3/5, 5, none⟩] : List Contract).map Contract.openInterest).sum) /
        ((([⟨100, 3, 1/2, 10, none⟩] : List Contract).map Contract.openInterest).sum +
          (([⟨100, 2, 3/5, 5, none⟩] : List Contract).map Contract.openInterest).sum + 1) ∧
      -1 < oi_imbalance [⟨100, 3, 1/2, 10, none⟩] [⟨100, 2, 3/5, 5, none⟩] ∧
      oi_imbalance [⟨100, 3, 1/2, 10, none⟩] [⟨100, 2, 3/5, 5, none⟩] < 1) :=
  ⟨by simp, by simp,
    oi_imbalance_bounds [⟨100, 3, 1/2, 10, none⟩] [⟨100, 2, 3/5, 5, none⟩]
      (by simp) (by simp)⟩

/-- Upper tanh bound: tanh is strictly below 1 on the reals. -/
theorem tanh_lt_one_real (x : ℝ) : Real.tanh x < 1 := by
  rw [Real.tanh_eq_sinh_div_cosh, div_lt_one (Real.cosh_pos x)]
  exact Real.sinh_lt_cosh x

/-- Lower tanh bound: tanh is strictly above -1 on the reals. -/
theorem neg_one_lt_tanh_real (x : ℝ) : -1 < Real.tanh x := by
  rw [Real.tanh_eq_sinh_div_cosh, lt_div_iff (Real.cosh_pos x)]
  have h := Real.sinh_lt_cosh (-x)
  rw [Real.sinh_neg, Real.cosh_neg] at h
  linarith

/-- Claim C8: for every skew and imbalance input the tilt
0.3*tanh(skew) + 0.2*tanh(imbalance) has absolute value strictly below 0.5,
and hence the unclamped squeeze and cascade values each lie within [0, 1]. -/
theorem tilt_bound_probs_unit (im : ℝ) (hm : Option ℝ) (skew oi : ℝ) :
    |tilt skew oi| < 0.5 ∧
    0 ≤ (score_model im hm skew oi).2.1 ∧ (score_model im hm skew oi).2.1 ≤ 1 ∧
    0 ≤ (score_model im hm skew oi).2.2 ∧ (score_model im hm skew oi).2.2 ≤ 1 := by
  have h1 : |Real.tanh skew| < 1 := by
    rw [abs_lt]; exact ⟨neg_one_lt_tanh_real skew, tanh_lt_one_real skew⟩
  have h2 : |Real.tanh oi| < 1 := by
    rw [abs_lt]; exact ⟨neg_one_lt_tanh_real oi, tanh_lt_one_real oi⟩
  have hb : |tilt skew oi| < 0.5 := by
    have habs : |tilt skew oi| ≤
        0.3 * |Real.tanh skew| + 0.2 * |Real.tanh oi| := by
      have : tilt skew oi = 0.3 * Real.tanh skew + 0.2 * Real.tanh oi := rfl
      rw [this]
      calc |0.3 * Real.tanh skew + 0.2 * Real.tanh oi|
          ≤ |0.3 * Real.tanh skew| + |0.2 * Real.tanh oi| := abs_add _ _
        _ = 0.3 * |Real.tanh skew| + 0.2 * |Real.tanh oi| := by
            rw [abs_mul, abs_mul, abs_of_pos (show (0:ℝ) < 0.3 by norm_num),
              abs_of_pos (show (0:ℝ) < 0.2 by norm_num)]
    have hs : 0.3 * |Real.tanh skew| < 0.3 * 1 :=
      mul_lt_mul_of_pos_left h1 (by norm_num)
    have ho : 0.2 * |Real.tanh oi| < 0.2 * 1 :=
      mul_lt_mul_of_pos_left h2 (by norm_num)
    calc |tilt skew oi| ≤ 0.3 * |Real.tanh skew| + 0.2 * |Real.tanh oi| := habs
      _ < 0.3 * 1 + 0.2 * 1 := by linarith
      _ = 0.5 := by norm_num
  obtain ⟨hlo, hhi⟩ := abs_lt.mp hb
  have hsq : (score_model im hm skew oi).2.1 = 0.5 + tilt skew oi := rfl
  have hca : (score_model im hm skew oi).2.2 = 0.5 - tilt skew oi := rfl
  refine ⟨hb, ?_, ?_, ?_, ?_⟩
  · rw [hsq]; linarith
  · rw [hsq]; linarith
  · rw [hca]; linarith
  · rw [hca]; linarith

theorem idxminAux_ne_none (m : Contract → ℝ) (c : Contract) (cs : List Contract) :
    idxminAux m (c :: cs) ≠ none := by
  cases h : idxminAux m cs with
  | none => simp [idxminAux, h]
  | some jb =>
    obtain ⟨j, b⟩ := jb
    by_cases hm : m b < m c <;> simp [idxminAux, h, hm]

/-- Correctness of the first-occurrence argmin: the returned index is in
bounds, points at the returned row, that row attains the minimum measure,
and every strictly earlier row has a strictly larger measure. -/
theorem idxminAux_spec (m : Contract → ℝ) :
    ∀ (l : List Contract) (j : ℕ) (b : Contract),
      idxminAux m l = some (j, b) →
      ∃ h : j < l.length,
        l.get ⟨j, h⟩ = b ∧
        (∀ k (hk : k < l.length), m b ≤ m (l.get ⟨k, hk⟩)) ∧
        (∀ k (hk : k < l.length), k < j → m b < m (l.get ⟨k, hk⟩)) := by
  intro l
  induction l with
  | nil => intro j b h; simp [idxminAux] at h
  | cons c cs ih =>
    intro j b hjb
    cases hcs : idxminAux m cs with
    | none =>
      have hnil : cs = [] := by
        cases cs with
        | nil => rfl
        | cons d ds => exact absurd hcs (idxminAux_ne_none m d ds)
      subst hnil
      simp only [idxminAux] at hjb
      obtain ⟨hj, hb⟩ : 0 = j ∧ c = b := by
        simpa using hjb
      subst hj; subst hb
      refine ⟨by simp, rfl, ?_, ?_⟩
      · intro k hk
        have hk0 : k = 0 := by simpa using Nat.lt_one_iff.mp (by simpa using hk)
        subst hk0; exact le_refl _
      · intro k hk hkj; omega
    | some jb =>
      obtain ⟨j1, b1⟩ := jb
      obtain ⟨hj1, hget1, hmin1, hfirst1⟩ := ih j1 b1 hcs
      simp only [idxminAux, hcs] at hjb
      by_cases hm : m b1 < m c
      · rw [if_pos hm] at hjb
        obtain ⟨hj, hb⟩ : j1 + 1 = j ∧ b1 = b := by simpa using hjb
        subst hj; subst hb
        refine ⟨by simpa using Nat.succ_lt_succ hj1, ?_, ?_, ?_⟩
        · simpa [List.get_cons_succ] using hget1
        · intro k hk
          cases k with
          | zero => exact le_of_lt hm
          | succ k1 =>
            have hk1 : k1 < cs.length := by simpa using hk
            simpa [List.get_cons_succ] using hmin1 k1 hk1
        · intro k hk hkj
          cases k with
          | zero => exact hm
          | succ k1 =>
            have hk1 : k1 < cs.length := by simpa using hk
            have hkj1 : k1 < j1 := by omega
            simpa [List.get_cons_succ] using hfirst1 k1 hk1 hkj1
      · rw [if_neg hm] at hjb
        obtain ⟨hj, hb⟩ : 0 = j ∧ c = b := by simpa using hjb
        subst hj; subst hb
        refine ⟨by simp, rfl, ?_, ?_⟩
        · intro k hk
          cases k with
          | zero => exact le_refl _
          | succ k1 =>
            have hk1 : k1 < cs.length := by simpa using hk
            have h1 : m c ≤ m b1 := not_lt.mp hm
            have h2 := hmin1 k1 hk1
            calc m c ≤ m b1 := h1
              _ ≤ m (cs.get ⟨k1, hk1⟩) := h2
              _ = m ((c :: cs).get ⟨k1 + 1, by simpa using hk⟩) := by
                  rw [List.get_cons_succ]
        · intro k hk hkj; omega

theorem setDist_length (spot : ℝ) (l : List Contract) :
    (setDist spot l).length = l.length :=
  List.length_map l _

theorem setDist_get (spot : ℝ) (l : List Contract) (k : ℕ) (hk : k < l.length)
    (hk' : k < (setDist spot l).length) :
    (setDist spot l).get ⟨k, hk'⟩ =
      { l.get ⟨k, hk⟩ with dist := some |(l.get ⟨k, hk⟩).strike - spot| } := by
  simp [setDist, List.get_map]

theorem setDist_map_field (spot : ℝ) (l : List Contract) (f : Contract → ℝ)
    (hf : ∀ r, f { r with dist := some |r.strike - spot| } = f r) :
    (setDist spot l).map f = l.map f := by
  unfold setDist
  rw [List.map_map]
  exact List.map_congr_left (fun r _ => hf r)

/-- One-sided at-the-money selection: on a non-empty chain, idxmin over the
dist column set by setDist picks the earliest row minimizing |strike - spot|. -/
theorem idxminAux_setDist_spec (spot : ℝ) (l : List Contract) (hl : l ≠ []) :
    ∃ (i : ℕ) (hi : i < l.length) (b : Contract),
      idxminAux distVal (setDist spot l) = some (i, b) ∧
      b.lastPrice = (l.get ⟨i, hi⟩).lastPrice ∧
      (∀ k (hk : k < l.length),
        |(l.get ⟨i, hi⟩).strike - spot| ≤ |(l.get ⟨k, hk⟩).strike - spot|) ∧
      (∀ k (hk : k < l.length), k < i →
        |(l.get ⟨i, hi⟩).strike - spot| < |(l.get ⟨k, hk⟩).strike - spot|) := by
  have hne : setDist spot l ≠ [] := by
    cases l with
    | nil => exact absurd rfl hl
    | cons c cs => simp [setDist]
  obtain ⟨jb, hjb⟩ : ∃ jb, idxminAux distVal (setDist spot l) = some jb := by
    cases h : idxminAux distVal (setDist spot l) with
    | none =>
      cases hsd : setDist spot l with
      | nil => exact absurd hsd hne
      | cons d ds => rw [hsd] at h; exact absurd h (idxminAux_ne_none distVal d ds)
    | some jb => exact ⟨jb, rfl⟩
  obtain ⟨i, b⟩ := jb
  obtain ⟨hi', hget, hmin, hfirst⟩ := idxminAux_spec distVal (setDist spot l) i b hjb
  have hi : i < l.length := by rwa [setDist_length] at hi'
  have hgetVal : ∀ k (hk : k < l.length) (hk' : k < (setDist spot l).length),
      distVal ((setDist spot l).get ⟨k, hk'⟩) = |(l.get ⟨k, hk⟩).strike - spot| := by
    intro k hk hk'
    rw [setDist_get spot l k hk hk']
    rfl
  have hbVal : distVal b = |(l.get ⟨i, hi⟩).strike - spot| := by
    rw [← hget]; exact hgetVal i hi hi'
  refine ⟨i, hi, b, hjb, ?_, ?_, ?_⟩
  · rw [← hget, setDist_get spot l i hi hi']
  · intro k hk
    have hk' : k < (setDist spot l).length := by rwa [setDist_length]
    have := hmin k hk'
    rwa [hbVal, hgetVal k hk hk'] at this
  · intro k hk hki
    have hk' : k < (setDist spot l).length := by rwa [setDist_length]
    have := hfirst k hk' hki
    rwa [hbVal, hgetVal k hk hk'] at this

/-- Claim C7: for every spot price and non-empty call and put chains, the
implied-move estimator selects the at-the-money call and put as the rows
minimizing |strike - spot| independently on each side, breaking ties in
favor of the earliest row in provider-returned order, and returns
(atm_call_price + atm_put_price) / spot. -/
theorem implied_move_atm (spot : ℝ) (calls puts : List Contract)
    (hc : calls ≠ []) (hp : puts ≠ []) :
    ∃ (i : ℕ) (hi : i < calls.length) (j : ℕ) (hj : j < puts.length),
      (∀ k (hk : k < calls.length),
        |(calls.get ⟨i, hi⟩).strike - spot| ≤ |(calls.get ⟨k, hk⟩).strike - spot|) ∧
      (∀ k (hk : k < calls.length), k < i →
        |(calls.get ⟨i, hi⟩).strike - spot| < |(calls.get ⟨k, hk⟩).strike - spot|) ∧
      (∀ k (hk : k < puts.length),
        |(puts.get ⟨j, hj⟩).strike - spot| ≤ |(puts.get ⟨k, hk⟩).strike - spot|) ∧
      (∀ k (hk : k < puts.length), k < j →
        |(puts.get ⟨j, hj⟩).strike - spot| < |(puts.get ⟨k, hk⟩).strike - spot|) ∧
      (implied_move spot calls puts).2.2 =
        some (((calls.get ⟨i, hi⟩).lastPrice + (puts.get ⟨j, hj⟩).lastPrice) / spot) := by
  obtain ⟨i, hi, bc, hjbc, hlpc, hminc, hfirstc⟩ := idxminAux_setDist_spec spot calls hc
  obtain ⟨j, hj, bp, hjbp, hlpp, hminp, hfirstp⟩ := idxminAux_setDist_spec spot puts hp
  refine ⟨i, hi, j, hj, hminc, hfirstc, hminp, hfirstp, ?_⟩
  simp [implied_move, hjbc, hjbp, hlpc, hlpp]

/-- Witness for claim C7 on two-row chains around spot 100. -/
theorem implied_move_atm_w :
    (([⟨95, 7, 1/2, 10, none⟩, ⟨100, 3, 1/2, 12, none⟩] : List Contract) ≠ [] ∧
      ([⟨100, 2, 3/5, 5, none⟩, ⟨110, 1, 3/5, 6, none⟩] : List Contract) ≠ []) ∧
    (∃ (i : ℕ) (hi : i < ([⟨95, 7, 1/2, 10, none⟩, ⟨100, 3, 1/2, 12, none⟩] : List Contract).length)
        (j : ℕ) (hj : j < ([⟨100, 2, 3/5, 5, none⟩, ⟨110, 1, 3/5, 6, none⟩] : List Contract).length),
      (∀ k (hk : k < ([⟨95, 7, 1/2, 10, none⟩, ⟨100, 3, 1/2, 12, none⟩] : List Contract).length),
        |(([⟨95, 7, 1/2, 10, none⟩, ⟨100, 3, 1/2, 12, none⟩] : List Contract).get ⟨i, hi⟩).strike - 100| ≤
          |(([⟨95, 7, 1/2, 10, none⟩, ⟨100, 3, 1/2, 12, none⟩] : List Contract).get ⟨k, hk⟩).strike - 100|) ∧
      (∀ k (hk : k < ([⟨95, 7, 1/2, 10, none⟩, ⟨100, 3, 1/2, 12, none⟩] : List Contract).length), k < i →
        |(([⟨95, 7, 1/2, 10, none⟩, ⟨100, 3, 1/2, 12, none⟩] : List Contract).get ⟨i, hi⟩).strike - 100| <
          |(([⟨95, 7, 1/2, 10, none⟩, ⟨100, 3, 1/2, 12, none⟩] : List Contract).get ⟨k, hk⟩).strike - 100|) ∧
      (∀ k (hk : k < ([⟨100, 2, 3/5, 5, none⟩, ⟨110, 1, 3/5, 6, none⟩] : List Contract).length),
        |(([⟨100, 2, 3/5, 5, none⟩, ⟨110, 1, 3/5, 6, none⟩] : List Contract).get ⟨j, hj⟩).strike - 100| ≤
          |(([⟨100, 2, 3/5, 5, none⟩, ⟨110, 1, 3/5, 6, none⟩] : List Contract).get ⟨k, hk⟩).strike - 100|) ∧
      (∀ k (hk : k < ([⟨100, 2, 3/5, 5, none⟩, ⟨110, 1, 3/5, 6, none⟩] : List Contract).length), k < j →
        |(([⟨100, 2, 3/5, 5, none⟩, ⟨110, 1, 3/5, 6, none⟩] : List Contract).get ⟨j, hj⟩).strike - 100| <
          |(([⟨100, 2, 3/5, 5, none⟩, ⟨110, 1, 3/5, 6, none⟩] : List Contract).get ⟨k, hk⟩).strike - 100|) ∧
      (implied_move 100 [⟨95, 7, 1/2, 10, none⟩, ⟨100, 3, 1/2, 12, none⟩]
          [⟨100, 2, 3/5, 5, none⟩, ⟨110, 1, 3/5, 6, none⟩]).2.2 =
        some (((([⟨95, 7, 1/2, 10, none⟩, ⟨100, 3, 1/2, 12, none⟩] : List Contract).get ⟨i, hi⟩).lastPrice +
          (([⟨100, 2, 3/5, 5, none⟩, ⟨110, 1, 3/5, 6, none⟩] : List Contract).get ⟨j, hj⟩).lastPrice) / 100)) :=
  ⟨⟨by simp, by simp⟩,
    implied_move_atm 100 [⟨95, 7, 1/2, 10, none⟩, ⟨100, 3, 1/2, 12, none⟩]
      [⟨100, 2, 3/5, 5, none⟩, ⟨110, 1, 3/5, 6, none⟩] (by simp) (by simp)⟩

/-- Counterexample to claim C9 as stated: the implied-move estimator does not
leave the fetched call chain unchanged.  On a freshly fetched one-row call
chain (dist column absent) the chain returned by implied_move differs from
the input: a dist column has been assigned in place. -/
theorem implied_move_mutates_chain :
    (implied_move 100 [⟨100, 3, 1/2, 10, none⟩] [⟨100, 2, 3/5, 5, none⟩]).1 ≠
      [⟨100, 3, 1/2, 10, none⟩] := by
  simp [implied_move, setDist, idxminAux, distVal, Contract.mk.injEq]

/-- Amended claim C9: the skew and open-interest extractors are pure, but the
implied-move estimator mutates both fetched chains in place by assigning a
dist column |strike - spot| to every row.  All other columns are left
unchanged, so the downstream skew and open-interest extractors compute the
same values on the mutated chains as on the originals. -/
theorem implied_move_mutation_only_dist (spot : ℝ) (calls puts : List Contract) :
    (implied_move spot calls puts).1 =
      calls.map (fun r => { r with dist := some |r.strike - spot| }) ∧
    (implied_move spot calls puts).2.1 =
      puts.map (fun r => { r with dist := some |r.strike - spot| }) ∧
    ((implied_move spot calls puts).1).map Contract.strike = calls.map Contract.strike ∧
    ((implied_move spot calls puts).1).map Contract.lastPrice = calls.map Contract.lastPrice ∧
    ((implied_move spot calls puts).1).map Contract.impliedVolatility =
      calls.map Contract.impliedVolatility ∧
    ((implied_move spot calls puts).1).map Contract.openInterest =
      calls.map Contract.openInterest ∧
    skew_proxy (implied_move spot calls puts).1 (implied_move spot calls puts).2.1 =
      skew_proxy calls puts ∧
    oi_imbalance (implied_move spot calls puts).1 (implied_move spot calls puts).2.1 =
      oi_imbalance calls puts := by
  have h1 : (implied_move spot calls puts).1 = setDist spot calls := by
    rcases hc : idxminAux distVal (setDist spot calls) with _ | ⟨j, b⟩ <;>
      rcases hp : idxminAux distVal (setDist spot puts) with _ | ⟨j2, b2⟩ <;>
        simp [implied_move, hc, hp]
  have h2 : (implied_move spot calls puts).2.1 = setDist spot puts := by
    rcases hc : idxminAux distVal (setDist spot calls) with _ | ⟨j, b⟩ <;>
      rcases hp : idxminAux distVal (setDist spot puts) with _ | ⟨j2, b2⟩ <;>
        simp [implied_move, hc, hp]
  have hiv : ∀ l : List Contract,
      (setDist spot l).map Contract.impliedVolatility = l.map Contract.impliedVolatility :=
    fun l => setDist_map_field spot l Contract.impliedVolatility (fun _ => rfl)
  have hoi : ∀ l : List Contract,
      (setDist spot l).map Contract.openInterest = l.map Contract.openInterest :=
    fun l => setDist_map_field spot l Contract.openInterest (fun _ => rfl)
  refine ⟨h1, h2, ?_, ?_, ?_, ?_, ?_, ?_⟩
  · rw [h1]; exact setDist_map_field spot calls Contract.strike (fun _ => rfl)
  · rw [h1]; exact setDist_map_field spot calls Contract.lastPrice (fun _ => rfl)
  · rw [h1]; exact hiv calls
  · rw [h1]; exact hoi calls
  · rw [h1, h2]
    unfold skew_proxy
    rw [hiv calls, hiv puts]
  · rw [h1, h2]
    unfold oi_imbalance
    rw [hoi calls, hoi puts]

theorem scanStep_some_ticker (today : ℤ) (mU mP : ℝ) (P : Provider)
    (t : String) (r : Row)
    (h : scanStep today mU mP P t = .ok (some r)) : r.ticker = t := by
  unfold scanStep at h
  split at h
  · split at h
    · exact absurd h (by simp)
    · split at h
      · exact absurd h (by simp)
      · dsimp only at h
        split at h
        · split at h
          · injection h with h1
            injection h1 with h2
            subst h2
            rfl
          · exact absurd h (by simp)
        · exact absurd h (by simp)
  · exact absurd h (by simp)

theorem scanLoop_mem (today : ℤ) (mU mP : ℝ) (P : Provider) :
    ∀ (us : List String) (rows : List Row),
      scanLoop today mU mP P us = .ok rows →
      ∀ r ∈ rows, ∃ t ∈ us, scanStep today mU mP P t = .ok (some r) := by
  intro us
  induction us with
  | nil =>
    intro rows h r hr
    obtain rfl : ([] : List Row) = rows := by simpa [scanLoop] using h
    simp at hr
  | cons t ts ih =>
    intro rows h r hr
    unfold scanLoop at h
    cases hstep : scanStep today mU mP P t with
    | error e => rw [hstep] at h; simp at h
    | ok o =>
      cases o with
      | none =>
        rw [hstep] at h
        obtain ⟨t1, ht1, hs⟩ := ih rows h r hr
        exact ⟨t1, List.mem_cons_of_mem _ ht1, hs⟩
      | some r0 =>
        rw [hstep] at h
        cases hrec : scanLoop today mU mP P ts with
        | error e => rw [hrec] at h; simp at h
        | ok rows1 =>
          rw [hrec] at h
          obtain rfl : r0 :: rows1 = rows := by simpa using h
          rcases List.mem_cons.mp hr with rfl | hr1
          · exact ⟨t, List.mem_cons_self t ts, hstep⟩
          · obtain ⟨t1, ht1, hs⟩ := ih rows1 hrec r hr1
            exact ⟨t1, List.mem_cons_of_mem _ ht1, hs⟩

theorem scanStep_none_excluded (today : ℤ) (mU mP : ℝ) (P : Provider)
    (t : String) (hnone : scanStep today mU mP P t = .ok none)
    (us : List String) (rows : List Row)
    (hrun : scanLoop today mU mP P us = .ok rows) :
    t ∉ rows.map Row.ticker := by
  intro hmem
  obtain ⟨r, hr, hticker⟩ := List.mem_map.mp hmem
  obtain ⟨t1, ht1, hs⟩ := scanLoop_mem today mU mP P us rows hrun r hr
  have ht : t1 = t := by
    rw [← hticker, scanStep_some_ticker today mU mP P t1 r hs]
  rw [ht] at hs
  have hcontra : (Except.ok none : Except Unit (Option Row)) = .ok (some r) :=
    hnone.symm.trans hs
  simp at hcontra

/-- Claim C5: for every ticker, if the earnings-date lookup fails for any
reason (provider error, absent or malformed calendar) or returns a date
other than today, the earnings-date filter returns false without propagating
an error, the scan step contributes nothing, and the ticker never appears in
the result set regardless of its metrics. -/
theorem earnings_filter_excludes (today : ℤ) (mU mP : ℝ) (P : Provider)
    (t : String) (us : List String) (rows : List Row)
    (hcal : P.cal t = .err ∨ P.cal t = .emptyCal ∨
      ∃ d, P.cal t = .ok d ∧ d ≠ today)
    (hrun : scanLoop today mU mP P us = .ok rows) :
    reports_today today (P.cal t) = false ∧
    scanStep today mU mP P t = .ok none ∧
    t ∉ rows.map Row.ticker := by
  have hrep : reports_today today (P.cal t) = false := by
    rcases hcal with h | h | ⟨d, h, hd⟩ <;> rw [h]
    · rfl
    · rfl
    · simp [reports_today, hd]
  have hstep : scanStep today mU mP P t = .ok none := by
    unfold scanStep
    rw [hrep]
    simp
  exact ⟨hrep, hstep, scanStep_none_excluded today mU mP P t hstep us rows hrun⟩

/-- Witness for claim C5: a ticker whose calendar lookup raises is filtered
out and absent from the (here empty) result set. -/
theorem earnings_filter_excludes_w :
    (provider5.cal "AAA" = .err ∨ provider5.cal "AAA" = .emptyCal ∨
      ∃ d, provider5.cal "AAA" = .ok d ∧ d ≠ 7) ∧
    (reports_today 7 (provider5.cal "AAA") = false ∧
      scanStep 7 1 (1/2) provider5 "AAA" = .ok none ∧
      "AAA" ∉ ([] : List Row).map Row.ticker) :=
  ⟨Or.inl rfl,
    earnings_filter_excludes 7 1 (1/2) provider5 "AAA" ["AAA"] []
      (Or.inl rfl) rfl⟩

/-- Claim C10: for a ticker whose historical-move fetch fails, hist_move
yields NaN, the derived underpricing is NaN, the acceptance comparison
underpricing >= min_underpricing is false, and the ticker is excluded from
the result set without raising an error.  The side condition that any
fetched chains are non-empty keeps the independent empty-chain ValueError of
implied_move (claim C4) from aborting the scan before hist_move runs. -/
theorem hist_nan_excluded (today : ℤ) (mU mP im skew oi : ℝ) (P : Provider)
    (t : String) (us : List String) (rows : List Row)
    (hfail : P.hist t = .error ())
    (hchains : ∀ spot ex calls puts, P.opts t = some (spot, ex, calls, puts) →
      calls ≠ [] ∧ puts ≠ [])
    (hrun : scanLoop today mU mP P us = .ok rows) :
    hist_move (P.hist t) = none ∧
    (score_model im (hist_move (P.hist t)) skew oi).1 = none ∧
    scanStep today mU mP P t = .ok none ∧
    t ∉ rows.map Row.ticker := by
  have hhm : hist_move (P.hist t) = none := by rw [hfail]; rfl
  have hund : (score_model im (hist_move (P.hist t)) skew oi).1 = none := by
    rw [hhm]; rfl
  have hstep : scanStep today mU mP P t = .ok none := by
    unfold scanStep
    by_cases hrep : reports_today today (P.cal t)
    · rw [if_pos hrep]
      cases hopt : P.opts t with
      | none => rfl
      | some data =>
        obtain ⟨spot, ex, calls, puts⟩ := data
        obtain ⟨hcne, hpne⟩ := hchains spot ex calls puts hopt
        obtain ⟨i, hi, bc, hjbc, -, -, -⟩ := idxminAux_setDist_spec spot calls hcne
        obtain ⟨j, hj, bp, hjbp, -, -, -⟩ := idxminAux_setDist_spec spot puts hpne
        have him : implied_move spot calls puts =
            (setDist spot calls, setDist spot puts,
              some ((bc.lastPrice + bp.lastPrice) / spot)) := by
          simp [implied_move, hjbc, hjbp]
        dsimp only
        rw [him]
        dsimp only
        rw [hhm]
    · rw [if_neg hrep]
  exact ⟨hhm, hund, hstep, scanStep_none_excluded today mU mP P t hstep us rows hrun⟩

/-- Witness for claim C10: with provider10 the single ticker reports today
and has usable chains, but its history fetch fails, so the scan yields no
row and no error. -/
theorem hist_nan_excluded_w :
    provider10.hist "AAA" = .error () ∧
    (hist_move (provider10.hist "AAA") = none ∧
      (score_model 1 (hist_move (provider10.hist "AAA")) 0 0).1 = none ∧
      scanStep 7 1 (1/2) provider10 "AAA" = .ok none ∧
      "AAA" ∉ ([] : List Row).map Row.ticker) :=
  ⟨rfl,
    hist_nan_excluded 7 1 (1/2) 1 0 0 provider10 "AAA" ["AAA"] [] rfl
      (by
        intro spot ex calls puts h
        simp only [provider10, Option.some.injEq, Prod.mk.injEq] at h
        obtain ⟨-, -, hc, hp⟩ := h
        constructor
        · rw [← hc]; simp
        · rw [← hp]; simp)
      rfl⟩

/-- Claim C4 evaluated at the failing input: a ticker reporting today whose
fetched chain has an empty call side is not excluded before the scoring
step.  The data guard in the loop passes, because None is the only falsy
fetch result, and implied_move is applied to the empty side, where idxmin
on the empty dist column raises an uncaught ValueError that aborts the
scan: the step is an error, not a skip. -/
theorem empty_chain_reaches_scoring :
    scanStep 7 1 (1/2) provider4 "ABC" = .error () := by
  rfl

